import Mathlib

/-
Verification of the motion-correction core in sima/motion/frame_align.py.

Shallow embedding conventions:
- A 4-d numpy array (3 spatial axes + channel axis) is modelled by `Arr`:
  an explicit spatial shape, a channel count, and a total data function on
  natural-number indices.  Reads outside the stored extent are never
  performed by the verified code paths; padding introduced by np.pad is
  modelled by a data function returning 0 outside the pre-pad extent.
- Machine floats are modelled by rationals.  The NaN-free regime is the one
  exercised by the claims: np.nan_to_num is the identity and np.isfinite is
  the constant 1 on rational data.
- Integer displacement / offset vectors (numpy length-3 int arrays) are
  functions from Fin 3 to the integers.
- Python exceptions (NotImplementedError, ValueError) are modelled by
  Except; the AssertionError raised when the pyramid refinement finds no
  candidate inside the bounds is modelled by Option.none.
-/

abbrev Vec3 := Fin 3 → ℤ

abbrev Idx3 := Fin 3 → ℕ

/-- A 4-dimensional array: three spatial axes followed by a channel axis. -/
structure Arr where
  sdims : Fin 3 → ℕ
  chans : ℕ
  data : Idx3 → ℕ → ℚ

/-- Low-side pad widths of `_resize_array` (frame_align.py line 322):
pad_width of each spatial axis is minus the negative part of the insertion
point. -/
def pad_low (displacement : Vec3) (i : Fin 3) : ℕ :=
  (-(min 0 (displacement i))).toNat

/-- High-side pad widths of `_resize_array` (frame_align.py lines 323-325):
the overhang of insertion point plus frame extent beyond the current
array extent, clipped at zero.  The channel axis is never padded. -/
def pad_high (a : Arr) (displacement : Vec3) (frame_sdims : Idx3) (i : Fin 3) : ℕ :=
  (max 0 (displacement i + (frame_sdims i : ℤ) - (a.sdims i : ℤ))).toNat

/-- Embeds `_resize_array` (frame_align.py lines 310-329).  np.pad with
constant zeros grows the spatial extent; the data of the grown array reads
the original array shifted by the low pads and is zero on the padding.
When every pad width is zero the array is returned unchanged, as in the
source's np.any(pad_width) fast path. -/
def _resize_array (a : Arr) (displacement : Vec3) (frame_sdims : Idx3) : Arr :=
  if ∀ i, pad_low displacement i = 0 ∧ pad_high a displacement frame_sdims i = 0 then
    a
  else
    { sdims := fun i => pad_low displacement i + a.sdims i + pad_high a displacement frame_sdims i
      chans := a.chans
      data := fun v c =>
        if ∀ i, pad_low displacement i ≤ v i ∧ v i < pad_low displacement i + a.sdims i then
          a.data (fun i => v i - pad_low displacement i) c
        else 0 }

/-- Embeds `_add_with_offset` (frame_align.py lines 266-279): array2 is
added into the slice of array1 starting at `offset`.  Only the three
spatial axes are sliced (the zip with the length-3 offset drops the channel
axis); the callers verified here always supply a non-negative offset whose
slice lies inside array1, so plain (non-wrapping) slice semantics apply. -/
def _add_with_offset (array1 array2 : Arr) (offset : Vec3) : Arr :=
  { array1 with
    data := fun v c =>
      if ∀ i, offset i ≤ (v i : ℤ) ∧ (v i : ℤ) < offset i + (array2.sdims i : ℤ) then
        array1.data v c + array2.data (fun i => ((v i : ℤ) - offset i).toNat) c
      else array1.data v c }

/-- The all-ones array of the same geometry as a given array: the value of
np.isfinite(image) on NaN-free (rational) data. -/
def ones_like (a : Arr) : Arr :=
  { a with data := fun _ _ => 1 }

/-- Embeds `_update_sums_and_counts` (frame_align.py lines 282-307).  On
NaN-free data np.nan_to_num(image) is image itself and np.isfinite(image)
is the all-ones array. -/
def _update_sums_and_counts (pixel_sums pixel_counts : Arr) (offset shift : Vec3)
    (image : Arr) : Arr × Arr :=
  let disp : Vec3 := fun i => offset i + shift i
  (_add_with_offset pixel_sums image disp,
   _add_with_offset pixel_counts (ones_like image) disp)

/-- Embeds `_update_reference` (frame_align.py lines 256-263): resize both
accumulator arrays to fit the insertion point displacement + offset, grow
the offset to max(offset, -displacement), then add the image and its
finiteness indicator. -/
def _update_reference (sums counts : Arr) (offset displacement : Vec3) (image : Arr) :
    Arr × Arr × Vec3 :=
  let sums1 := _resize_array sums (fun i => displacement i + offset i) image.sdims
  let counts1 := _resize_array counts (fun i => displacement i + offset i) image.sdims
  let offset1 : Vec3 := fun i => max (offset i) (-(displacement i))
  let sc := _update_sums_and_counts sums1 counts1 offset1 displacement image
  (sc.1, sc.2, offset1)

/-- Iterates `_update_reference` over a list of (displacement, image)
updates, as the coordinator does over the frames of a run. -/
def apply_updates : Arr × Arr × Vec3 → List (Vec3 × Arr) → Arr × Arr × Vec3
  | st, [] => st
  | st, (d, img) :: rest =>
      apply_updates (_update_reference st.1 st.2.1 st.2.2 d img) rest

/-- Reads an accumulator array at an absolute coordinate x, i.e. at array
index x + offset, returning 0 outside the stored extent.  Absolute
coordinates are the coordinate frame that stays fixed while the backing
array grows and the offset evolves. -/
def abs_get (a : Arr) (offset : Vec3) (x : Vec3) (c : ℕ) : ℚ :=
  if (∀ i, 0 ≤ x i + offset i ∧ x i + offset i < (a.sdims i : ℤ)) ∧ c < a.chans then
    a.data (fun i => (x i + offset i).toNat) c
  else 0

/-- The contribution of one update (displacement d, image img) to the
absolute coordinate x: the image pixel landing there, if any. -/
def contrib (d : Vec3) (img : Arr) (x : Vec3) (c : ℕ) : ℚ :=
  if (∀ i, d i ≤ x i ∧ x i < d i + (img.sdims i : ℤ)) ∧ c < img.chans then
    img.data (fun i => (x i - d i).toNat) c
  else 0

/-- Total contribution of a list of updates to an absolute coordinate of
the sums array. -/
def total_contrib (l : List (Vec3 × Arr)) (x : Vec3) (c : ℕ) : ℚ :=
  (l.map fun p => contrib p.1 p.2 x c).sum

/-- Total contribution of a list of updates to an absolute coordinate of
the counts array (each update contributes its finiteness indicator). -/
def count_contrib (l : List (Vec3 × Arr)) (x : Vec3) (c : ℕ) : ℚ :=
  (l.map fun p => contrib p.1 (ones_like p.2) x c).sum

lemma resize_sdims (a : Arr) (d : Vec3) (f : Idx3) (i : Fin 3) :
    (_resize_array a d f).sdims i = pad_low d i + a.sdims i + pad_high a d f i := by
  unfold _resize_array
  by_cases h : ∀ j, pad_low d j = 0 ∧ pad_high a d f j = 0
  · simp only [if_pos h]
    have := h i
    omega
  · simp only [if_neg h]

lemma resize_chans (a : Arr) (d : Vec3) (f : Idx3) :
    (_resize_array a d f).chans = a.chans := by
  unfold _resize_array
  by_cases h : ∀ j, pad_low d j = 0 ∧ pad_high a d f j = 0
  · simp [h]
  · simp [h]

lemma resize_data (a : Arr) (d : Vec3) (f : Idx3) (v : Idx3) (c : ℕ)
    (hv : ∀ i, v i < (_resize_array a d f).sdims i) :
    (_resize_array a d f).data v c =
      if ∀ i, pad_low d i ≤ v i ∧ v i < pad_low d i + a.sdims i then
        a.data (fun i => v i - pad_low d i) c
      else 0 := by
  unfold _resize_array
  by_cases h : ∀ j, pad_low d j = 0 ∧ pad_high a d f j = 0
  · simp only [if_pos h]
    have hin : ∀ i, pad_low d i ≤ v i ∧ v i < pad_low d i + a.sdims i := by
      intro i
      have h1 := (h i).1
      have h2 := hv i
      rw [resize_sdims] at h2
      have h3 := (h i).2
      omega
    rw [if_pos hin]
    congr 1
    funext i
    have := (h i).1
    omega
  · simp only [if_neg h]

lemma add_sdims (a b : Arr) (off : Vec3) : (_add_with_offset a b off).sdims = a.sdims := rfl

lemma add_chans (a b : Arr) (off : Vec3) : (_add_with_offset a b off).chans = a.chans := rfl

lemma ones_like_chans (a : Arr) : (ones_like a).chans = a.chans := rfl

lemma ones_like_sdims (a : Arr) : (ones_like a).sdims = a.sdims := rfl

lemma update_reference_unfold (sums counts : Arr) (o d : Vec3) (img : Arr) :
    _update_reference sums counts o d img =
      (_add_with_offset (_resize_array sums (fun i => d i + o i) img.sdims) img
         (fun i => max (o i) (-(d i)) + d i),
       _add_with_offset (_resize_array counts (fun i => d i + o i) img.sdims) (ones_like img)
         (fun i => max (o i) (-(d i)) + d i),
       fun i => max (o i) (-(d i))) := rfl

lemma pad_low_cast (o d : Vec3) (i : Fin 3) :
    (pad_low (fun j => d j + o j) i : ℤ) = max (o i) (-(d i)) - o i := by
  show (((-(min 0 (d i + o i))).toNat : ℤ)) = max (o i) (-(d i)) - o i
  omega

lemma add_resize_abs_get (a img : Arr) (o d : Vec3) (hch : img.chans = a.chans)
    (x : Vec3) (c : ℕ) :
    abs_get
      (_add_with_offset (_resize_array a (fun i => d i + o i) img.sdims) img
        (fun i => max (o i) (-(d i)) + d i))
      (fun i => max (o i) (-(d i))) x c
    = abs_get a o x c + contrib d img x c := by
  set A := _resize_array a (fun i => d i + o i) img.sdims with hA
  have hAdims : ∀ i, A.sdims i =
      pad_low (fun j => d j + o j) i + a.sdims i + pad_high a (fun j => d j + o j) img.sdims i :=
    fun i => resize_sdims a _ _ i
  have hAch : A.chans = a.chans := resize_chans a _ _
  by_cases hc : c < a.chans
  · by_cases hnew : ∀ i, 0 ≤ x i + max (o i) (-(d i)) ∧ x i + max (o i) (-(d i)) < (A.sdims i : ℤ)
    · -- the absolute coordinate lies inside the grown array
      have hv : ∀ i, ((x i + max (o i) (-(d i))).toNat : ℤ) = x i + max (o i) (-(d i)) := by
        intro i
        exact Int.toNat_of_nonneg (hnew i).1
      have hLHS : abs_get
          (_add_with_offset A img (fun i => max (o i) (-(d i)) + d i))
          (fun i => max (o i) (-(d i))) x c
          = (_add_with_offset A img (fun i => max (o i) (-(d i)) + d i)).data
              (fun i => (x i + max (o i) (-(d i))).toNat) c := by
        unfold abs_get
        rw [if_pos]
        refine ⟨fun i => ?_, ?_⟩
        · simpa [add_sdims] using hnew i
        · rw [add_chans, hAch]; exact hc
      rw [hLHS]
      unfold _add_with_offset
      simp only
      by_cases himg : ∀ i, d i ≤ x i ∧ x i < d i + (img.sdims i : ℤ)
      · -- the image covers this coordinate: both arrays contribute
        rw [if_pos]
        · have hidx : (fun i => (((x i + max (o i) (-(d i))).toNat : ℤ) -
              (max (o i) (-(d i)) + d i)).toNat) = fun i => (x i - d i).toNat := by
            funext i
            rw [hv i]
            omega
          rw [hidx]
          have hAv : A.data (fun i => (x i + max (o i) (-(d i))).toNat) c
              = abs_get a o x c := by
            rw [hA, resize_data]
            · by_cases hold : ∀ i, 0 ≤ x i + o i ∧ x i + o i < (a.sdims i : ℤ)
              · rw [if_pos, abs_get, if_pos ⟨hold, hc⟩]
                · congr 1
                  funext i
                  have h1 := pad_low_cast o d i
                  have h2 := hv i
                  have h3 := (hold i).1
                  omega
                · intro i
                  have h1 := pad_low_cast o d i
                  have h2 := hv i
                  have h3 := (hold i).1
                  have h4 := (hold i).2
                  constructor <;> omega
              · push_neg at hold
                obtain ⟨i, hi⟩ := hold
                rw [if_neg, abs_get, if_neg]
                · rintro ⟨hall, -⟩
                  exact absurd (hall i) (by omega)
                · intro hall
                  have h1 := pad_low_cast o d i
                  have h2 := hv i
                  have h3 := hall i
                  omega
            · intro i
              have := hnew i
              rw [hAdims i] at this ⊢
              omega
          rw [hAv]
          congr 1
          rw [contrib, if_pos ⟨himg, by omega⟩]
        · intro i
          have h1 := hv i
          have h2 := (himg i).1
          have h3 := (himg i).2
          constructor <;> omega
      · -- the image misses this coordinate: only the resized array is read
        rw [if_neg]
        · have hAv : A.data (fun i => (x i + max (o i) (-(d i))).toNat) c
              = abs_get a o x c := by
            rw [hA, resize_data]
            · by_cases hold : ∀ i, 0 ≤ x i + o i ∧ x i + o i < (a.sdims i : ℤ)
              · rw [if_pos, abs_get, if_pos ⟨hold, hc⟩]
                · congr 1
                  funext i
                  have h1 := pad_low_cast o d i
                  have h2 := hv i
                  have h3 := (hold i).1
                  omega
                · intro i
                  have h1 := pad_low_cast o d i
                  have h2 := hv i
                  have h3 := (hold i).1
                  have h4 := (hold i).2
                  constructor <;> omega
              · push_neg at hold
                obtain ⟨i, hi⟩ := hold
                rw [if_neg, abs_get, if_neg]
                · rintro ⟨hall, -⟩
                  exact absurd (hall i) (by omega)
                · intro hall
                  have h1 := pad_low_cast o d i
                  have h2 := hv i
                  have h3 := hall i
                  omega
            · intro i
              have := hnew i
              rw [hAdims i] at this ⊢
              omega
          rw [hAv, contrib, if_neg]
          · ring
          · rintro ⟨hall, -⟩
            exact himg hall
        · intro hall
          apply himg
          intro i
          have h1 := hall i
          have h2 := hv i
          constructor <;> omega
    · -- outside the grown array: everything is zero
      push_neg at hnew
      obtain ⟨i, hi⟩ := hnew
      have hpadlow := pad_low_cast o d i
      have hdims := hAdims i
      have hph : (pad_high a (fun j => d j + o j) img.sdims i : ℤ)
          = max 0 (d i + o i + (img.sdims i : ℤ) - (a.sdims i : ℤ)) := by
        show (((max 0 (d i + o i + (img.sdims i : ℤ) - (a.sdims i : ℤ))).toNat : ℤ)) = _
        omega
      rw [abs_get, if_neg, abs_get, if_neg, contrib, if_neg]
      · ring
      · rintro ⟨hall, -⟩
        have h1 := (hall i).1
        have h2 := (hall i).2
        have := hi (by omega)
        omega
      · rintro ⟨hall, -⟩
        have h1 := (hall i).1
        have h2 := (hall i).2
        have := hi (by omega)
        omega
      · rintro ⟨hall, -⟩
        have h1 := (hall i).1
        have h2 := (hall i).2
        rw [add_sdims] at h2
        have := hi h1
        omega
  · -- channel out of range on every array involved
    rw [abs_get, if_neg, abs_get, if_neg, contrib, if_neg]
    · ring
    · rintro ⟨-, hcc⟩
      omega
    · rintro ⟨-, hcc⟩
      exact hc hcc
    · rintro ⟨-, hcc⟩
      rw [add_chans, hAch] at hcc
      exact hc hcc

lemma update_reference_sums_chans (s c : Arr) (o d : Vec3) (img : Arr) :
    (_update_reference s c o d img).1.chans = s.chans := by
  rw [update_reference_unfold, add_chans, resize_chans]

lemma update_reference_counts_chans (s c : Arr) (o d : Vec3) (img : Arr) :
    (_update_reference s c o d img).2.1.chans = c.chans := by
  rw [update_reference_unfold, add_chans, resize_chans]

lemma update_reference_sdims_eq (s c : Arr) (o d : Vec3) (img : Arr)
    (hdims : s.sdims = c.sdims) :
    (_update_reference s c o d img).1.sdims = (_update_reference s c o d img).2.1.sdims := by
  rw [update_reference_unfold]
  simp only [add_sdims]
  funext i
  rw [resize_sdims, resize_sdims]
  unfold pad_high
  rw [hdims]

lemma update_reference_abs_get_sums (s c : Arr) (o d : Vec3) (img : Arr)
    (hch : img.chans = s.chans) (x : Vec3) (ch : ℕ) :
    abs_get (_update_reference s c o d img).1 (_update_reference s c o d img).2.2 x ch
      = abs_get s o x ch + contrib d img x ch := by
  rw [update_reference_unfold]
  exact add_resize_abs_get s img o d hch x ch

lemma update_reference_abs_get_counts (s c : Arr) (o d : Vec3) (img : Arr)
    (hch : img.chans = c.chans) (x : Vec3) (ch : ℕ) :
    abs_get (_update_reference s c o d img).2.1 (_update_reference s c o d img).2.2 x ch
      = abs_get c o x ch + contrib d (ones_like img) x ch := by
  rw [update_reference_unfold]
  have h : _resize_array c (fun i => d i + o i) img.sdims
      = _resize_array c (fun i => d i + o i) (ones_like img).sdims := rfl
  simp only
  rw [h]
  exact add_resize_abs_get c (ones_like img) o d hch x ch

lemma contrib_ones_nonneg (d : Vec3) (img : Arr) (x : Vec3) (ch : ℕ) :
    0 ≤ contrib d (ones_like img) x ch := by
  unfold contrib
  split
  · norm_num [ones_like]
  · exact le_refl 0

lemma count_contrib_nonneg (l : List (Vec3 × Arr)) (x : Vec3) (ch : ℕ) :
    0 ≤ count_contrib l x ch := by
  unfold count_contrib
  apply List.sum_nonneg
  intro q hq
  simp only [List.mem_map] at hq
  obtain ⟨p, -, rfl⟩ := hq
  exact contrib_ones_nonneg p.1 p.2 x ch

/-- C1: growing the reference accumulator by any sequence of updates keeps
the sums and counts arrays the same shape (the channel axis never grows),
and, read in absolute coordinates (relative to the evolving offset), each
update only adds the new image on top of everything written before: the
final value at every coordinate is the initial one plus the sum of the
individual contributions, so no previously written value is ever lost. -/
theorem accumulator_growth_correct (s c : Arr) (o : Vec3) (l : List (Vec3 × Arr))
    (hdims : s.sdims = c.sdims) (hch : s.chans = c.chans)
    (himgs : ∀ p ∈ l, (p.2 : Arr).chans = s.chans) :
    ((apply_updates (s, c, o) l).1.sdims = (apply_updates (s, c, o) l).2.1.sdims) ∧
    ((apply_updates (s, c, o) l).1.chans = s.chans) ∧
    ((apply_updates (s, c, o) l).2.1.chans = c.chans) ∧
    (∀ x ch, abs_get (apply_updates (s, c, o) l).1 (apply_updates (s, c, o) l).2.2 x ch
        = abs_get s o x ch + total_contrib l x ch) ∧
    (∀ x ch, abs_get (apply_updates (s, c, o) l).2.1 (apply_updates (s, c, o) l).2.2 x ch
        = abs_get c o x ch + count_contrib l x ch) ∧
    (∀ x ch, abs_get c o x ch
        ≤ abs_get (apply_updates (s, c, o) l).2.1 (apply_updates (s, c, o) l).2.2 x ch) := by
  induction l generalizing s c o with
  | nil =>
      refine ⟨hdims, rfl, rfl, ?_, ?_, ?_⟩
      · intro x ch
        simp [apply_updates, total_contrib]
      · intro x ch
        simp [apply_updates, count_contrib]
      · intro x ch
        simp [apply_updates]
  | cons p rest ih =>
      obtain ⟨d, img⟩ := p
      have himg : img.chans = s.chans := himgs (d, img) (List.mem_cons_self _ _)
      have himgc : img.chans = c.chans := himg.trans hch
      have h1 : (_update_reference s c o d img).1.sdims
          = (_update_reference s c o d img).2.1.sdims :=
        update_reference_sdims_eq s c o d img hdims
      have h2 : (_update_reference s c o d img).1.chans = s.chans :=
        update_reference_sums_chans s c o d img
      have h3 : (_update_reference s c o d img).2.1.chans = c.chans :=
        update_reference_counts_chans s c o d img
      have hrest : ∀ q ∈ rest, (q.2 : Arr).chans = (_update_reference s c o d img).1.chans := by
        intro q hq
        rw [h2]
        exact himgs q (List.mem_cons_of_mem _ hq)
      have happ : apply_updates (s, c, o) ((d, img) :: rest)
          = apply_updates ((_update_reference s c o d img).1,
              (_update_reference s c o d img).2.1,
              (_update_reference s c o d img).2.2) rest := rfl
      have ihx := ih (_update_reference s c o d img).1 (_update_reference s c o d img).2.1
        (_update_reference s c o d img).2.2 h1 (h2.trans (hch.trans h3.symm)) hrest
      rw [happ]
      refine ⟨ihx.1, ihx.2.1.trans h2, ihx.2.2.1.trans h3, ?_, ?_, ?_⟩
      · intro x ch
        rw [ihx.2.2.2.1 x ch, update_reference_abs_get_sums s c o d img himg x ch]
        show _ = _ + ((contrib d img x ch) + total_contrib rest x ch)
        ring
      · intro x ch
        rw [ihx.2.2.2.2.1 x ch, update_reference_abs_get_counts s c o d img himgc x ch]
        show _ = _ + ((contrib d (ones_like img) x ch) + count_contrib rest x ch)
        ring
      · intro x ch
        rw [ihx.2.2.2.2.1 x ch, update_reference_abs_get_counts s c o d img himgc x ch]
        have hc1 := contrib_ones_nonneg d img x ch
        have hc2 := count_contrib_nonneg rest x ch
        linarith

lemma apply_updates_offset_mono (l : List (Vec3 × Arr)) :
    ∀ (s c : Arr) (o : Vec3) (i : Fin 3), o i ≤ (apply_updates (s, c, o) l).2.2 i := by
  induction l with
  | nil => intro s c o i; exact le_refl _
  | cons p rest ih =>
      intro s c o i
      obtain ⟨d, img⟩ := p
      have h : (_update_reference s c o d img).2.2 i = max (o i) (-(d i)) := rfl
      calc o i ≤ max (o i) (-(d i)) := le_max_left _ _
        _ ≤ (apply_updates (s, c, o) ((d, img) :: rest)).2.2 i := by
              have := ih (_update_reference s c o d img).1 (_update_reference s c o d img).2.1
                (_update_reference s c o d img).2.2 i
              rw [h] at this
              exact this

/-- C5: each _update_reference call sets the new offset to the componentwise
maximum of the old offset and the negated displacement; hence the offset
never decreases across any sequence of updates, and the insertion point
new offset + displacement of the current update is componentwise
non-negative. -/
theorem offset_update_max (s c : Arr) (o d : Vec3) (img : Arr) :
    ((_update_reference s c o d img).2.2 = fun i => max (o i) (-(d i))) ∧
    (∀ i, o i ≤ (_update_reference s c o d img).2.2 i) ∧
    (∀ i, 0 ≤ (_update_reference s c o d img).2.2 i + d i) ∧
    (∀ (l : List (Vec3 × Arr)) (i : Fin 3), o i ≤ (apply_updates (s, c, o) l).2.2 i) := by
  refine ⟨rfl, ?_, ?_, ?_⟩
  · intro i
    exact le_max_left _ _
  · intro i
    have h : (_update_reference s c o d img).2.2 i = max (o i) (-(d i)) := rfl
    rw [h]
    omega
  · intro l i
    exact apply_updates_offset_mono l s c o i

/-- The flattening performed by it.chain(*it.chain(*shifts)) in
_align_planes: cycles, then frames, then planes are flattened into one
list of per-plane shift vectors (the spatial components, sliced by
[..., 1:] at the call site in _frame_alignment_base line 149). -/
def flatten_shifts (shifts : List (List (List (Fin 2 → ℤ)))) : List (Fin 2 → ℤ) :=
  (shifts.flatMap id).flatMap id

/-- The nanmean of all flattened shift rows along axis 0 (frame_align.py
line 143).  The shift records are integer arrays, so no NaN can occur and
nanmean is the plain arithmetic mean, taken jointly over every cycle,
frame and plane, separately per spatial dimension. -/
def mean_shift (shifts : List (List (List (Fin 2 → ℤ)))) : Fin 2 → ℚ := fun i =>
  ((flatten_shifts shifts).map fun v => ((v i : ℤ) : ℚ)).sum / ((flatten_shifts shifts).length : ℚ)

/-- numpy .astype(int) on floats is a C cast: truncation toward zero. -/
def trunc_int (q : ℚ) : ℤ :=
  if 0 ≤ q then ⌊q⌋ else ⌈q⌉

/-- The per-dimension integer alteration of _align_planes (line 145):
the mean shift minus its component 0, truncated to integer. -/
def alteration (shifts : List (List (List (Fin 2 → ℤ)))) : Fin 2 → ℤ := fun i =>
  trunc_int (mean_shift shifts i - mean_shift shifts 0)

/-- Embeds `_align_planes` (frame_align.py lines 141-147): the alteration
is broadcast-subtracted from every shift row of every cycle. -/
def _align_planes (shifts : List (List (List (Fin 2 → ℤ)))) :
    List (List (List (Fin 2 → ℤ))) :=
  shifts.map fun cyc => cyc.map fun frame => frame.map fun v => fun i => v i - alteration shifts i

lemma flatten_shifts_map (s : List (List (List (Fin 2 → ℤ)))) (g : (Fin 2 → ℤ) → (Fin 2 → ℤ)) :
    flatten_shifts (s.map fun cyc => cyc.map fun frame => frame.map g)
      = (flatten_shifts s).map g := by
  unfold flatten_shifts
  induction s with
  | nil => simp
  | cons cyc rest ih =>
      simp only [List.map_cons, List.flatMap_cons, id_eq, List.flatMap_append, List.map_append]
      rw [ih]
      congr 1
      induction cyc with
      | nil => simp
      | cons frame frest ihf =>
          simp only [List.map_cons, List.flatMap_cons, id_eq, List.map_append]
          rw [ihf]

lemma sum_map_sub_const (l : List (Fin 2 → ℤ)) (a : Fin 2 → ℤ) (i : Fin 2) :
    ((l.map fun v : Fin 2 → ℤ => fun j => v j - a j).map fun v => ((v i : ℤ) : ℚ)).sum
      = (l.map fun v => ((v i : ℤ) : ℚ)).sum - (l.length : ℚ) * ((a i : ℤ) : ℚ) := by
  induction l with
  | nil => simp
  | cons v rest ih =>
      simp only [List.map_cons, List.sum_cons, List.length_cons, ih]
      push_cast
      ring

lemma trunc_int_zero : trunc_int 0 = 0 := by
  unfold trunc_int
  simp

lemma trunc_int_sub_self (q : ℚ) : trunc_int (q - (trunc_int q : ℤ)) = 0 := by
  unfold trunc_int
  by_cases h : 0 ≤ q
  · rw [if_pos h]
    have h1 : (0 : ℚ) ≤ q - (⌊q⌋ : ℤ) := by
      have := Int.floor_le q
      linarith
    rw [if_pos h1]
    rw [Int.floor_eq_zero_iff]
    constructor
    · exact h1
    · have := Int.lt_floor_add_one q
      linarith
  · rw [if_neg h]
    by_cases h1 : (0 : ℚ) ≤ q - (⌈q⌉ : ℤ)
    · rw [if_pos h1]
      have h2 : q - (⌈q⌉ : ℤ) ≤ 0 := by
        have := Int.le_ceil q
        linarith
      have h3 : q - (⌈q⌉ : ℤ) = 0 := le_antisymm h2 h1
      rw [h3]
      simp
    · rw [if_neg h1]
      rw [Int.ceil_eq_zero_iff]
      constructor
      · have := Int.ceil_lt_add_one q
        linarith
      · push_neg at h1
        linarith

lemma mean_shift_align (s : List (List (List (Fin 2 → ℤ))))
    (hne : flatten_shifts s ≠ []) (i : Fin 2) :
    mean_shift (_align_planes s) i = mean_shift s i - ((alteration s i : ℤ) : ℚ) := by
  have hN : ((flatten_shifts s).length : ℚ) ≠ 0 := by
    have : 0 < (flatten_shifts s).length := List.length_pos.mpr hne
    positivity
  unfold mean_shift _align_planes
  rw [flatten_shifts_map]
  rw [sum_map_sub_const, List.length_map]
  field_simp

lemma alteration_align_zero (s : List (List (List (Fin 2 → ℤ))))
    (hne : flatten_shifts s ≠ []) (i : Fin 2) :
    alteration (_align_planes s) i = 0 := by
  unfold alteration
  rw [mean_shift_align s hne i, mean_shift_align s hne 0]
  have h0 : alteration s 0 = trunc_int (mean_shift s 0 - mean_shift s 0) := rfl
  rw [sub_self, trunc_int_zero] at h0
  have : mean_shift s i - (alteration s i : ℚ) - (mean_shift s 0 - ((0 : ℤ) : ℚ))
      = (mean_shift s i - mean_shift s 0) - ((trunc_int (mean_shift s i - mean_shift s 0) : ℤ) : ℚ) := by
    rw [show alteration s i = trunc_int (mean_shift s i - mean_shift s 0) from rfl]
    push_cast
    ring
  rw [h0, this]
  exact trunc_int_sub_self _

/-- C7: plane drift correction is idempotent: a second application of
_align_planes computes a zero alteration and leaves the shift records
unchanged. -/
theorem align_planes_idempotent (s : List (List (List (Fin 2 → ℤ))))
    (hne : flatten_shifts s ≠ []) :
    alteration (_align_planes s) = (fun _ => 0) ∧
    _align_planes (_align_planes s) = _align_planes s := by
  have hz : alteration (_align_planes s) = fun _ => 0 := by
    funext i
    exact alteration_align_zero s hne i
  refine ⟨hz, ?_⟩
  show (_align_planes s).map _ = _align_planes s
  have : (fun (v : Fin 2 → ℤ) => fun i => v i - alteration (_align_planes s) i)
      = fun v => v := by
    funext v i
    rw [hz]
    simp
  conv_lhs => rw [show (fun cyc : List (List (Fin 2 → ℤ)) =>
    cyc.map fun frame => frame.map fun v => fun i => v i - alteration (_align_planes s) i)
      = fun cyc => cyc.map fun frame => frame.map fun v => v from by rw [this]]
  simp

/-- Embeds the worker-pool sizing of `_frame_alignment_base` (frame_align.py
lines 95-100).  Python 2 integer division is floor division; n_processes
is None (unspecified) or an explicit integer.  Note the 0-to-1
normalization is applied only in the explicit branch. -/
def n_pools (n_processes : Option ℤ) (cpu_count : ℕ) : ℤ :=
  match n_processes with
  | none => (cpu_count : ℤ) / 2
  | some n => if n = 0 then 1 else n

/-- C9 evaluation: an explicit 0 is normalized to 1 and any other explicit
value is used as given, but the default branch is exactly
cpu_count / 2 with no minimum applied: on a single-core machine it yields
0 worker processes, not the minimum of 1 the claim states. -/
theorem n_pools_spec :
    n_pools (some 0) 8 = 1 ∧
    n_pools (some 3) 1 = 3 ∧
    n_pools (some 7) 4 = 7 ∧
    (∀ cpu : ℕ, n_pools none cpu = (cpu : ℤ) / 2) ∧
    n_pools none 1 = 0 ∧
    n_pools none 4 = 2 := by
  refine ⟨rfl, rfl, rfl, fun cpu => rfl, rfl, rfl⟩

/-- Bounds constraining admissible displacements: a (lower row, upper row)
pair of integer vectors, matching the (2, 3)-shaped ndarray of the source;
None means unconstrained. -/
abbrev Bounds := Vec3 × Vec3

/-- Embeds `within_bounds` (frame_align.py lines 421-426). -/
def within_bounds (displacement : Vec3) (bounds : Option Bounds) : Bool :=
  match bounds with
  | none => true
  | some b => decide (∀ i, b.1 i ≤ displacement i) && decide (∀ i, b.2 i ≥ displacement i)

/-- The assert at frame_align.py line 440: bounds is None or componentwise
strictly ordered. -/
def bounds_ok (bounds : Option Bounds) : Bool :=
  match bounds with
  | none => true
  | some b => decide (∀ i, b.1 i < b.2 i)

/-- The boolean vector axes_bool of frame_align.py line 442: an axis is
downsampled when both images have spatial size at least 2 * min_shape
there. -/
def axes_bool (reference target : Arr) (min_shape : Idx3) (i : Fin 3) : Bool :=
  decide (2 * min_shape i ≤ min (reference.sdims i) (target.sdims i))

/-- Embeds `pyr_down_3d` (frame_align.py lines 399-414).  The Gaussian
smoothing (scipy.ndimage.filters.gaussian_filter, sigma 1.05 on the
downsampled axes and 0 elsewhere) is an external shape-preserving
primitive, supplied as the data function gf; the stride-2 slicing on the
downsampled axes is explicit: the new extent is the ceiling of half the
old one and index v reads the filtered image at 2 * v on those axes. -/
def pyr_down_3d (gf : Arr → Idx3 → ℕ → ℚ) (image : Arr) (ab : Fin 3 → Bool) : Arr :=
  { sdims := fun i => if ab i then (image.sdims i + 1) / 2 else image.sdims i
    chans := image.chans
    data := fun v c => gf image (fun i => if ab i then 2 * v i else v i) c }

/-- The external primitives the Pyramid Alignment Engine is built on:
the Gaussian filter used by pyr_down_3d, the floating-point normalized
cross-correlation scorer shifted_corr (frame_align.py lines 380-396, whose
square-root arithmetic is abstracted as an arbitrary rational-valued
score), and align_cross_correlation from sima.misc.align, the external
base primitive. -/
structure PyrPrims where
  gaussian_filter : Arr → Idx3 → ℕ → ℚ
  shifted_corr : Arr → Arr → Vec3 → ℚ
  align_cross_correlation : Arr → Arr → Option Bounds → Vec3

/-- Embeds `base_alignment` (frame_align.py lines 417-418). -/
def base_alignment (prims : PyrPrims) (reference target : Arr) (bounds : Option Bounds) : Vec3 :=
  prims.align_cross_correlation reference target bounds

/-- Halving of bounds at a downsampling step (frame_align.py line 445):
numpy integer division of both rows by (1 + axes_bool), i.e. floor
division by 2 on downsampled axes and by 1 elsewhere. -/
def halve_bounds (ab : Fin 3 → Bool) (b : Bounds) : Bounds :=
  (fun i => Int.fdiv (b.1 i) (if ab i then 2 else 1),
   fun i => Int.fdiv (b.2 i) (if ab i then 2 else 1))

/-- The adjustment values tried on one axis during local refinement
(frame_align.py line 452): range(-1, 2) on downsampled axes, range(1)
elsewhere. -/
def adjustment_options (b : Bool) : List ℤ :=
  if b then [-1, 0, 1] else [0]

/-- The full cross-product of per-axis adjustments enumerated by
it.product, in the same lexicographic order. -/
def adjustments (ab : Fin 3 → Bool) : List Vec3 :=
  (adjustment_options (ab 0)).flatMap fun a0 =>
    (adjustment_options (ab 1)).flatMap fun a1 =>
      (adjustment_options (ab 2)).map fun a2 => ![a0, a1, a2]

/-- The list of refinement candidates at one pyramid level (frame_align.py
line 453): the coarse displacement upscaled by (1 + axes_bool), plus each
adjustment of the cross-product. -/
def refine_candidates (ab : Fin 3 → Bool) (disp : Vec3) : List Vec3 :=
  (adjustments ab).map fun adjustment =>
    fun i => (if ab i then 2 else 1) * disp i + adjustment i

/-- One step of the running best-candidate loop of frame_align.py lines
455-458: keep the incumbent unless the new correlation is strictly
larger (the initial best_corr of -inf is the None accumulator). -/
def best_step (score : Vec3 → ℚ) (best : Option (Vec3 × ℚ)) (displacement : Vec3) :
    Option (Vec3 × ℚ) :=
  let corr := score displacement
  match best with
  | none => some (displacement, corr)
  | some p => if p.2 < corr then some (displacement, corr) else some p

/-- The refinement loop of frame_align.py lines 451-458: candidates
violating the bounds are skipped, surviving candidates are scored and the
strict-improvement maximum is kept. -/
def pick_best (score : Vec3 → ℚ) (bounds : Option Bounds) (cands : List Vec3) :
    Option (Vec3 × ℚ) :=
  cands.foldl
    (fun best displacement =>
      if within_bounds displacement bounds then best_step score best displacement else best)
    none

/-- Embeds `pyramid_align` (frame_align.py lines 429-462) over the
external primitives.  max_levels is a natural number or the unlimited
default (top, the np.inf default); min_shape at least 1 on every axis is
required for termination (see the termination argument below: each
recursive call strictly shrinks the total spatial extent).  A failed
assert (the bounds-ordering assert at entry, or best_displacement
remaining None after refinement) is modelled as none. -/
def pyramid_align (prims : PyrPrims) (reference target : Arr) (min_shape : Idx3)
    (hms : ∀ i, 1 ≤ min_shape i) (max_levels : WithTop ℕ) (bounds : Option Bounds) :
    Option Vec3 :=
  if bounds_ok bounds then
    if h : 0 < max_levels ∧ ∃ i, axes_bool reference target min_shape i = true then
      match pyramid_align prims
          (pyr_down_3d prims.gaussian_filter reference (axes_bool reference target min_shape))
          (pyr_down_3d prims.gaussian_filter target (axes_bool reference target min_shape))
          min_shape hms (max_levels - 1)
          (Option.map (halve_bounds (axes_bool reference target min_shape)) bounds) with
      | none => none
      | some disp =>
          Option.map Prod.fst
            (pick_best (prims.shifted_corr reference target) bounds
              (refine_candidates (axes_bool reference target min_shape) disp))
    else
      some (base_alignment prims reference target bounds)
  else none
termination_by ∑ i : Fin 3, (reference.sdims i + target.sdims i)
decreasing_by
  obtain ⟨-, i0, hi0⟩ := h
  apply Finset.sum_lt_sum
  · intro i _
    unfold pyr_down_3d
    by_cases hab : axes_bool reference target min_shape i = true
    · simp only [hab, if_true]
      omega
    · simp only [hab]
      simp
  · refine ⟨i0, Finset.mem_univ i0, ?_⟩
    unfold pyr_down_3d
    simp only [hi0, if_true]
    have hms0 := hms i0
    have hax : 2 * min_shape i0 ≤ min (reference.sdims i0) (target.sdims i0) := by
      have := of_decide_eq_true hi0
      exact this
    omega

lemma within_bounds_iff (d : Vec3) (lo hi : Vec3) :
    within_bounds d (some (lo, hi)) = true ↔ ∀ i, lo i ≤ d i ∧ d i ≤ hi i := by
  unfold within_bounds
  rw [Bool.and_eq_true, decide_eq_true_eq, decide_eq_true_eq]
  constructor
  · rintro ⟨h1, h2⟩ i
    exact ⟨h1 i, h2 i⟩
  · intro h
    exact ⟨fun i => (h i).1, fun i => (h i).2⟩

lemma within_bounds_none (d : Vec3) : within_bounds d none = true := rfl

lemma best_fold_spec (score : Vec3 → ℚ) :
    ∀ (l : List Vec3) (p : Vec3 × ℚ), p.2 = score p.1 →
      ∃ q : Vec3 × ℚ, l.foldl (best_step score) (some p) = some q ∧
        q.2 = score q.1 ∧ (q.1 = p.1 ∨ q.1 ∈ l) ∧ p.2 ≤ q.2 ∧ ∀ d ∈ l, score d ≤ q.2 := by
  intro l
  induction l with
  | nil =>
      intro p hp
      exact ⟨p, rfl, hp, Or.inl rfl, le_refl _, by simp⟩
  | cons d rest ih =>
      intro p hp
      by_cases hlt : p.2 < score d
      · have hstep : best_step score (some p) d = some (d, score d) := by
          unfold best_step
          simp [hlt]
        obtain ⟨q, hq, hqs, hqm, hqle, hqmax⟩ := ih (d, score d) rfl
        refine ⟨q, ?_, hqs, ?_, ?_, ?_⟩
        · show List.foldl (best_step score) (best_step score (some p) d) rest = some q
          rw [hstep]
          exact hq
        · rcases hqm with h | h
          · exact Or.inr (h ▸ List.mem_cons_self d rest)
          · exact Or.inr (List.mem_cons_of_mem d h)
        · exact le_trans (le_of_lt hlt) hqle
        · intro e he
          rcases List.mem_cons.mp he with rfl | he
          · exact hqle
          · exact hqmax e he
      · have hstep : best_step score (some p) d = some p := by
          unfold best_step
          simp [hlt]
        obtain ⟨q, hq, hqs, hqm, hqle, hqmax⟩ := ih p hp
        refine ⟨q, ?_, hqs, ?_, hqle, ?_⟩
        · show List.foldl (best_step score) (best_step score (some p) d) rest = some q
          rw [hstep]
          exact hq
        · rcases hqm with h | h
          · exact Or.inl h
          · exact Or.inr (List.mem_cons_of_mem d h)
        · intro e he
          rcases List.mem_cons.mp he with rfl | he
          · push_neg at hlt
            exact le_trans hlt hqle
          · exact hqmax e he

lemma pick_best_eq_filter (score : Vec3 → ℚ) (bounds : Option Bounds) (cands : List Vec3) :
    pick_best score bounds cands
      = (cands.filter fun d => within_bounds d bounds).foldl (best_step score) none := by
  unfold pick_best
  generalize (none : Option (Vec3 × ℚ)) = acc
  induction cands generalizing acc with
  | nil => rfl
  | cons d rest ih =>
      rw [List.foldl_cons, List.filter_cons]
      cases h : within_bounds d bounds with
      | true =>
          rw [if_pos rfl, if_pos rfl, List.foldl_cons]
          exact ih _
      | false =>
          rw [if_neg (by simp), if_neg (by simp)]
          exact ih _

lemma pick_best_none_iff (score : Vec3 → ℚ) (bounds : Option Bounds) (cands : List Vec3) :
    pick_best score bounds cands = none
      ↔ ∀ c ∈ cands, within_bounds c bounds = false := by
  rw [pick_best_eq_filter]
  cases hf : cands.filter fun d => within_bounds d bounds with
  | nil =>
      simp only [List.foldl_nil]
      constructor
      · intro _ c hc
        by_contra hcc
        have : c ∈ cands.filter fun d => within_bounds d bounds :=
          List.mem_filter.mpr ⟨hc, by
            cases hcb : within_bounds c bounds
            · exact absurd hcb hcc
            · rfl⟩
        rw [hf] at this
        exact absurd this (List.not_mem_nil c)
      · intro _
        trivial
  | cons d rest =>
      have hd : best_step score none d = some (d, score d) := rfl
      simp only [List.foldl_cons, hd]
      obtain ⟨q, hq, -, -, -, -⟩ := best_fold_spec score rest (d, score d) rfl
      rw [hq]
      constructor
      · intro h
        exact absurd h (by simp)
      · intro h
        have : d ∈ cands.filter fun e => within_bounds e bounds := by
          rw [hf]
          exact List.mem_cons_self d rest
        have hmem := List.mem_filter.mp this
        rw [h d hmem.1] at hmem
        exact absurd hmem.2 (by simp)

lemma pick_best_some_spec (score : Vec3 → ℚ) (bounds : Option Bounds) (cands : List Vec3)
    (q : Vec3 × ℚ) (hq : pick_best score bounds cands = some q) :
    q.1 ∈ cands ∧ within_bounds q.1 bounds = true ∧ q.2 = score q.1 ∧
      ∀ d ∈ cands, within_bounds d bounds = true → score d ≤ q.2 := by
  rw [pick_best_eq_filter] at hq
  cases hf : cands.filter fun d => within_bounds d bounds with
  | nil =>
      rw [hf] at hq
      exact absurd hq (by simp)
  | cons d rest =>
      rw [hf] at hq
      have hd : best_step score none d = some (d, score d) := rfl
      simp only [List.foldl_cons, hd] at hq
      obtain ⟨q', hq', hqs, hqm, hqle, hqmax⟩ := best_fold_spec score rest (d, score d) rfl
      rw [hq'] at hq
      have hqq : q = q' := (Option.some.inj hq).symm
      subst hqq
      have hqfil : q.1 ∈ cands.filter fun e => within_bounds e bounds := by
        rw [hf]
        rcases hqm with h | h
        · exact h ▸ List.mem_cons_self d rest
        · exact List.mem_cons_of_mem d h
      have hqmem := List.mem_filter.mp hqfil
      refine ⟨hqmem.1, hqmem.2, hqs, ?_⟩
      intro e he hwe
      have : e ∈ cands.filter fun d2 => within_bounds d2 bounds :=
        List.mem_filter.mpr ⟨he, hwe⟩
      rw [hf] at this
      rcases List.mem_cons.mp this with rfl | hmem
      · exact hqle
      · exact hqmax e hmem

lemma bounds_ok_some_iff (lo hi : Vec3) :
    bounds_ok (some (lo, hi)) = true ↔ ∀ i, lo i < hi i := by
  unfold bounds_ok
  exact decide_eq_true_iff

lemma mem_adjustment_options_iff (b : Bool) (z : ℤ) :
    z ∈ adjustment_options b ↔ if b then z = -1 ∨ z = 0 ∨ z = 1 else z = 0 := by
  cases b <;> simp [adjustment_options]

lemma vec3_eta (v : Vec3) : ![v 0, v 1, v 2] = v := by
  funext i
  fin_cases i <;> rfl

lemma mem_adjustments_iff (ab : Fin 3 → Bool) (v : Vec3) :
    v ∈ adjustments ab
      ↔ ∀ i, if ab i then v i = -1 ∨ v i = 0 ∨ v i = 1 else v i = 0 := by
  unfold adjustments
  simp only [List.mem_flatMap, List.mem_map]
  constructor
  · rintro ⟨a0, h0, a1, h1, a2, h2, rfl⟩
    rw [mem_adjustment_options_iff] at h0 h1 h2
    intro i
    fin_cases i
    · exact h0
    · exact h1
    · exact h2
  · intro h
    refine ⟨v 0, ?_, v 1, ?_, v 2, ?_, vec3_eta v⟩
    · exact (mem_adjustment_options_iff _ _).mpr (h 0)
    · exact (mem_adjustment_options_iff _ _).mpr (h 1)
    · exact (mem_adjustment_options_iff _ _).mpr (h 2)

lemma zero_mem_adjustment_options (b : Bool) : (0 : ℤ) ∈ adjustment_options b := by
  cases b <;> simp [adjustment_options]

lemma zero_vec_mem_adjustments (ab : Fin 3 → Bool) : (![(0 : ℤ), 0, 0]) ∈ adjustments ab := by
  unfold adjustments
  refine List.mem_flatMap.mpr ⟨0, zero_mem_adjustment_options _, ?_⟩
  refine List.mem_flatMap.mpr ⟨0, zero_mem_adjustment_options _, ?_⟩
  exact List.mem_map.mpr ⟨0, zero_mem_adjustment_options _, rfl⟩

lemma pyr_down_measure_lt (gf : Arr → Idx3 → ℕ → ℚ) (r t : Arr) (ms : Idx3)
    (hms : ∀ i, 1 ≤ ms i) (hax : ∃ i, axes_bool r t ms i = true) :
    ∑ i : Fin 3, ((pyr_down_3d gf r (axes_bool r t ms)).sdims i
        + (pyr_down_3d gf t (axes_bool r t ms)).sdims i)
      < ∑ i : Fin 3, (r.sdims i + t.sdims i) := by
  obtain ⟨i0, hi0⟩ := hax
  apply Finset.sum_lt_sum
  · intro i _
    unfold pyr_down_3d
    by_cases hab : axes_bool r t ms i = true
    · simp only [hab, if_true]
      omega
    · simp only [hab]
      simp
  · refine ⟨i0, Finset.mem_univ i0, ?_⟩
    unfold pyr_down_3d
    simp only [hi0, if_true]
    have hms0 := hms i0
    have hax2 : 2 * ms i0 ≤ min (r.sdims i0) (t.sdims i0) := of_decide_eq_true hi0
    omega

/-- C2: whenever bounds are supplied (componentwise strictly ordered, as
the entry assert requires) and the external base primitive honours the
bounds it is handed, every displacement pyramid_align returns satisfies
lower <= d <= upper componentwise: the base case inherits the property
from the primitive and the refinement level filters every candidate
against the original, unhalved bounds. -/
theorem pyramid_align_respects_bounds (prims : PyrPrims)
    (hbase : ∀ (r t : Arr) (b : Bounds), (∀ i, b.1 i < b.2 i) →
      within_bounds (base_alignment prims r t (some b)) (some b) = true)
    (reference target : Arr) (min_shape : Idx3) (hms : ∀ i, 1 ≤ min_shape i)
    (max_levels : WithTop ℕ) (lo hi : Vec3) (hlt : ∀ i, lo i < hi i) (d : Vec3)
    (hres : pyramid_align prims reference target min_shape hms max_levels (some (lo, hi))
      = some d) :
    ∀ i, lo i ≤ d i ∧ d i ≤ hi i := by
  rw [pyramid_align.eq_def] at hres
  rw [if_pos ((bounds_ok_some_iff lo hi).mpr hlt)] at hres
  by_cases hcond : 0 < max_levels ∧ ∃ i, axes_bool reference target min_shape i = true
  · rw [dif_pos hcond] at hres
    cases hinner : pyramid_align prims
        (pyr_down_3d prims.gaussian_filter reference (axes_bool reference target min_shape))
        (pyr_down_3d prims.gaussian_filter target (axes_bool reference target min_shape))
        min_shape hms (max_levels - 1)
        (Option.map (halve_bounds (axes_bool reference target min_shape)) (some (lo, hi))) with
    | none =>
        rw [hinner] at hres
        simp at hres
    | some disp =>
        rw [hinner] at hres
        obtain ⟨q, hq, hq1⟩ := Option.map_eq_some'.mp hres
        have spec := pick_best_some_spec _ _ _ q hq
        have hw := (within_bounds_iff q.1 lo hi).mp spec.2.1
        rw [hq1] at hw
        exact hw
  · rw [dif_neg hcond] at hres
    have hd : base_alignment prims reference target (some (lo, hi)) = d := Option.some.inj hres
    have hw := (within_bounds_iff _ lo hi).mp (hbase reference target (lo, hi) hlt)
    rw [hd] at hw
    exact hw

/-- C3: at a recursive level (some axis downsampled, levels remaining,
entry assert satisfied, coarse estimate disp obtained), the refinement of
pyramid_align considers exactly the coarse displacement scaled by 2 on
downsampled axes and 1 elsewhere plus the cross-product of adjustments
(-1, 0, 1 on downsampled axes, 0 elsewhere), discards candidates violating
the original unhalved bounds, returns a surviving candidate of maximal
shifted_corr score, and fails (the modelled AssertionError, none) exactly
when no candidate survives the bounds filter. -/
theorem pyramid_align_refinement (prims : PyrPrims) (reference target : Arr)
    (min_shape : Idx3) (hms : ∀ i, 1 ≤ min_shape i) (max_levels : WithTop ℕ)
    (bounds : Option Bounds)
    (hok : bounds_ok bounds = true)
    (hml : 0 < max_levels)
    (hax : ∃ i, axes_bool reference target min_shape i = true)
    (disp : Vec3)
    (hrec : pyramid_align prims
        (pyr_down_3d prims.gaussian_filter reference (axes_bool reference target min_shape))
        (pyr_down_3d prims.gaussian_filter target (axes_bool reference target min_shape))
        min_shape hms (max_levels - 1)
        (Option.map (halve_bounds (axes_bool reference target min_shape)) bounds)
      = some disp) :
    (∀ v, v ∈ adjustments (axes_bool reference target min_shape)
      ↔ ∀ i, if axes_bool reference target min_shape i then v i = -1 ∨ v i = 0 ∨ v i = 1
             else v i = 0) ∧
    (pyramid_align prims reference target min_shape hms max_levels bounds = none
      ↔ ∀ c ∈ refine_candidates (axes_bool reference target min_shape) disp,
          within_bounds c bounds = false) ∧
    (∀ d, pyramid_align prims reference target min_shape hms max_levels bounds = some d →
      d ∈ refine_candidates (axes_bool reference target min_shape) disp ∧
      within_bounds d bounds = true ∧
      ∀ c ∈ refine_candidates (axes_bool reference target min_shape) disp,
        within_bounds c bounds = true →
          prims.shifted_corr reference target c ≤ prims.shifted_corr reference target d) := by
  have hstep : pyramid_align prims reference target min_shape hms max_levels bounds
      = Option.map Prod.fst
          (pick_best (prims.shifted_corr reference target) bounds
            (refine_candidates (axes_bool reference target min_shape) disp)) := by
    rw [pyramid_align.eq_def, if_pos hok, dif_pos ⟨hml, hax⟩, hrec]
  refine ⟨fun v => mem_adjustments_iff _ v, ?_, ?_⟩
  · rw [hstep, Option.map_eq_none']
    exact pick_best_none_iff _ _ _
  · intro d hd
    rw [hstep] at hd
    obtain ⟨q, hq, hq1⟩ := Option.map_eq_some'.mp hd
    have spec := pick_best_some_spec _ _ _ q hq
    refine ⟨hq1 ▸ spec.1, hq1 ▸ spec.2.1, ?_⟩
    intro c hc hwc
    have hle := spec.2.2.2 c hc hwc
    rw [spec.2.2.1, hq1] at hle
    exact hle

/-- C6: pyramid_align recurses only while levels remain and some spatial
axis of both images is at least twice min_shape; when that condition
fails (and the entry assert passes) it returns exactly the base
primitive's result under the current bounds; and whenever the condition
holds, the downsampled pair is strictly smaller in total spatial extent
(given min_shape at least 1), the measure by which the recursion is
well-founded, so the search terminates for every input and every
max_levels including the unlimited default. -/
theorem pyramid_align_terminates (prims : PyrPrims) (reference target : Arr)
    (min_shape : Idx3) (hms : ∀ i, 1 ≤ min_shape i) (max_levels : WithTop ℕ)
    (bounds : Option Bounds) :
    (bounds_ok bounds = true →
      ¬(0 < max_levels ∧ ∃ i, axes_bool reference target min_shape i = true) →
      pyramid_align prims reference target min_shape hms max_levels bounds
        = some (base_alignment prims reference target bounds)) ∧
    ((∃ i, axes_bool reference target min_shape i = true) →
      ∑ i : Fin 3,
          ((pyr_down_3d prims.gaussian_filter reference
              (axes_bool reference target min_shape)).sdims i
            + (pyr_down_3d prims.gaussian_filter target
                (axes_bool reference target min_shape)).sdims i)
        < ∑ i : Fin 3, (reference.sdims i + target.sdims i)) := by
  constructor
  · intro hok hcond
    rw [pyramid_align.eq_def, if_pos hok, dif_neg hcond]
  · intro hax
    exact pyr_down_measure_lt prims.gaussian_filter reference target min_shape hms hax

/-- C10: with bounds = None the refinement can never fail: within_bounds
accepts every candidate, the adjustment cross-product is non-empty, and
the halved bounds stay None at every level, so pyramid_align always
returns a displacement; the fatal no-survivor AssertionError is
unreachable for unbounded searches. -/
theorem pyramid_align_unbounded_total (prims : PyrPrims) (min_shape : Idx3)
    (hms : ∀ i, 1 ≤ min_shape i) :
    ∀ (r t : Arr) (ml : WithTop ℕ),
      (pyramid_align prims r t min_shape hms ml none).isSome = true := by
  suffices H : ∀ (n : ℕ) (r t : Arr) (ml : WithTop ℕ),
      (∑ i : Fin 3, (r.sdims i + t.sdims i)) ≤ n →
      (pyramid_align prims r t min_shape hms ml none).isSome = true by
    intro r t ml
    exact H _ r t ml le_rfl
  intro n
  induction n with
  | zero =>
      intro r t ml hn
      rw [pyramid_align.eq_def, if_pos (show bounds_ok none = true from rfl), dif_neg]
      · simp
      · rintro ⟨-, i, hi⟩
        have h1 : 2 * min_shape i ≤ min (r.sdims i) (t.sdims i) := of_decide_eq_true hi
        have h2 : r.sdims i + t.sdims i ≤ ∑ j : Fin 3, (r.sdims j + t.sdims j) :=
          Finset.single_le_sum (f := fun j => r.sdims j + t.sdims j)
            (fun _ _ => Nat.zero_le _) (Finset.mem_univ i)
        have h3 := hms i
        omega
  | succ n ih =>
      intro r t ml hn
      rw [pyramid_align.eq_def, if_pos (show bounds_ok none = true from rfl)]
      by_cases hcond : 0 < ml ∧ ∃ i, axes_bool r t min_shape i = true
      · rw [dif_pos hcond]
        have hdec := pyr_down_measure_lt prims.gaussian_filter r t min_shape hms hcond.2
        have hinner := ih (pyr_down_3d prims.gaussian_filter r (axes_bool r t min_shape))
          (pyr_down_3d prims.gaussian_filter t (axes_bool r t min_shape)) (ml - 1)
          (by omega)
        simp only [Option.map_none']
        cases hpy : pyramid_align prims
            (pyr_down_3d prims.gaussian_filter r (axes_bool r t min_shape))
            (pyr_down_3d prims.gaussian_filter t (axes_bool r t min_shape))
            min_shape hms (ml - 1) none with
        | none =>
            rw [hpy] at hinner
            simp at hinner
        | some disp =>
            show (Option.map Prod.fst
              (pick_best (prims.shifted_corr r t) none
                (refine_candidates (axes_bool r t min_shape) disp))).isSome = true
            cases hpb : pick_best (prims.shifted_corr r t) none
                (refine_candidates (axes_bool r t min_shape) disp) with
            | none =>
                exfalso
                have hall := (pick_best_none_iff _ _ _).mp hpb
                have hmem : (fun i => (if axes_bool r t min_shape i then 2 else 1) * disp i
                    + (![(0 : ℤ), 0, 0]) i)
                    ∈ refine_candidates (axes_bool r t min_shape) disp :=
                  List.mem_map.mpr ⟨![(0 : ℤ), 0, 0],
                    zero_vec_mem_adjustments _, rfl⟩
                have := hall _ hmem
                rw [within_bounds_none] at this
                exact absurd this (by simp)
            | some q =>
                rfl
      · rw [dif_neg hcond]
        simp

/-- A single plane of a frame: two spatial axes plus the channel axis
(frame[p] in _align_frame). -/
structure Plane where
  rdims : Fin 2 → ℕ
  chans : ℕ
  data : (Fin 2 → ℕ) → ℕ → ℚ

/-- np.expand_dims(plane, 0): the plane as a 4-d array with a singleton
leading spatial axis. -/
def expand_dims (plane : Plane) : Arr :=
  { sdims := ![1, plane.rdims 0, plane.rdims 1]
    chans := plane.chans
    data := fun v c => plane.data ![v 1, v 2] c }

/-- np.any(pixel_counts[p]) of frame_align.py line 196: whether any entry
of plane p of the counts accumulator is non-zero. -/
def any_plane (a : Arr) (p : ℕ) : Bool :=
  (List.range (a.sdims 1)).any fun y =>
    (List.range (a.sdims 2)).any fun x =>
      (List.range a.chans).any fun ch => decide (a.data ![p, y, x] ch ≠ 0)

/-- The two exception classes raised by the method dispatch of
_align_frame: NotImplementedError for ECC (line 238) and ValueError for an
unrecognized method (line 241). -/
inductive AlignError where
  | notImplemented
  | unrecognizedMethod
deriving DecidableEq

/-- The shared mutable state of the coordinator: the per-plane reference
accumulator (pixel_sums, pixel_counts, offset) and the per-(cycle, frame,
plane) shift and correlation records of the namespace (lines 104-111). -/
structure AlignState where
  pixel_sums : Arr
  pixel_counts : Arr
  offset : Vec3
  shifts : ℕ → ℕ → ℕ → Vec3
  correlations : ℕ → ℕ → ℕ → ℚ

/-- Pointwise update of a record indexed by (cycle, frame, plane). -/
def update3 {α : Type} (f : ℕ → ℕ → ℕ → α) (a b c : ℕ) (v : α) : ℕ → ℕ → ℕ → α :=
  fun a2 b2 c2 => if a2 = a ∧ b2 = b ∧ c2 = c then v else f a2 b2 c2

/-- Embeds the body of the per-plane loop of `_align_frame` (frame_align.py
lines 191-253), sequentialized (the lock serializes every read and write
of the shared state; this model is the interleaving in which the whole
per-plane body runs atomically).  The correlation branch's search -- the
snapshot, the sums/counts mean reference, the displacement-bounds
derivation and the pyramid_align call of lines 210-236, all verified
separately at the pyramid level -- is abstracted as the search parameter;
its result is committed relative to the snapshot offset and applied to the
accumulator exactly as lines 242-253 do.  A raised exception is modelled
as Except.error. -/
def _align_frame_plane (search : AlignState → ℕ → Plane → Vec3) (method : String)
    (cycle_idx frame_idx : ℕ) (st : AlignState) (p : ℕ) (plane : Plane) :
    Except AlignError AlignState :=
  if any_plane st.pixel_counts p = false then
    let st1 : AlignState := { st with
      correlations := update3 st.correlations cycle_idx frame_idx p 1
      shifts := update3 st.shifts cycle_idx frame_idx p (fun _ => 0) }
    let upd := _update_reference st1.pixel_sums st1.pixel_counts st1.offset
      ![(p : ℤ), 0, 0] (expand_dims plane)
    Except.ok { st1 with pixel_sums := upd.1, pixel_counts := upd.2.1, offset := upd.2.2 }
  else if method = "correlation" then
    let shift := search st p plane
    let st1 : AlignState := { st with
      shifts := update3 st.shifts cycle_idx frame_idx p (fun i => shift i - st.offset i) }
    let committed := st1.shifts cycle_idx frame_idx p
    let upd := _update_reference st1.pixel_sums st1.pixel_counts st1.offset
      ![(p : ℤ), committed 1, committed 2] (expand_dims plane)
    Except.ok { st1 with pixel_sums := upd.1, pixel_counts := upd.2.1, offset := upd.2.2 }
  else if method = "ECC" then
    Except.error AlignError.notImplemented
  else
    Except.error AlignError.unrecognizedMethod

/-- Embeds the per-frame loop of `_align_frame`: the planes of one frame
are processed in order p = 0, 1, ...; a raised exception aborts the
loop. -/
def _align_frame (search : AlignState → ℕ → Plane → Vec3) (method : String)
    (cycle_idx frame_idx : ℕ) : ℕ → AlignState → List Plane → Except AlignError AlignState
  | _, st, [] => Except.ok st
  | p, st, plane :: rest =>
      match _align_frame_plane search method cycle_idx frame_idx st p plane with
      | Except.ok st2 => _align_frame search method cycle_idx frame_idx (p + 1) st2 rest
      | Except.error e => Except.error e

/-- C4: a plane whose accumulator counts are entirely zero is the seed
frame: the result is independent of the search primitive (the pyramid
search is never invoked), the committed shift record for (cycle, frame,
plane) is the zero vector, the correlation record is 1, and the plane's
pixels are added into the accumulator with zero spatial displacement
(displacement [p, 0, 0], the plane index positioning plus zero shift). -/
theorem seed_frame_detection (search search2 : AlignState → ℕ → Plane → Vec3)
    (method : String) (cycle_idx frame_idx : ℕ) (st : AlignState) (p : ℕ) (plane : Plane)
    (hzero : any_plane st.pixel_counts p = false) :
    _align_frame_plane search method cycle_idx frame_idx st p plane
      = _align_frame_plane search2 method cycle_idx frame_idx st p plane ∧
    ∃ st2, _align_frame_plane search method cycle_idx frame_idx st p plane = Except.ok st2 ∧
      st2.shifts cycle_idx frame_idx p = (fun _ => 0) ∧
      st2.correlations cycle_idx frame_idx p = 1 ∧
      (st2.pixel_sums, st2.pixel_counts, st2.offset)
        = _update_reference st.pixel_sums st.pixel_counts st.offset
            ![(p : ℤ), 0, 0] (expand_dims plane) := by
  unfold _align_frame_plane
  rw [if_pos hzero, if_pos hzero]
  refine ⟨rfl, _, rfl, ?_, ?_, rfl⟩
  · show update3 st.shifts cycle_idx frame_idx p (fun _ => 0) cycle_idx frame_idx p
      = (fun _ => 0)
    unfold update3
    simp
  · show update3 st.correlations cycle_idx frame_idx p 1 cycle_idx frame_idx p = 1
    unfold update3
    simp

/-- C8 (amended): for a plane whose accumulator is already seeded, method
ECC raises NotImplementedError and any method other than correlation and
ECC raises the distinct ValueError, in both cases before committing
anything for that plane; the errors are distinct. -/
theorem method_dispatch_errors (search : AlignState → ℕ → Plane → Vec3)
    (cycle_idx frame_idx : ℕ) (st : AlignState) (p : ℕ) (plane : Plane)
    (hseeded : any_plane st.pixel_counts p = true) :
    (_align_frame_plane search "ECC" cycle_idx frame_idx st p plane
        = Except.error AlignError.notImplemented) ∧
    (∀ method : String, method ≠ "correlation" → method ≠ "ECC" →
      _align_frame_plane search method cycle_idx frame_idx st p plane
        = Except.error AlignError.unrecognizedMethod) ∧
    AlignError.notImplemented ≠ AlignError.unrecognizedMethod := by
  refine ⟨?_, ?_, by decide⟩
  · unfold _align_frame_plane
    rw [if_neg (by simp [hseeded]), if_neg (by decide), if_pos rfl]
  · intro method hm1 hm2
    unfold _align_frame_plane
    rw [if_neg (by simp [hseeded]), if_neg hm1, if_neg hm2]

/-- A concrete 1x1x1, 1-channel zero array for witness evaluation. -/
def demo_arr : Arr := { sdims := ![1, 1, 1], chans := 1, data := fun _ _ => 0 }

/-- A concrete 1x1x1, 1-channel constant-5 image for witness evaluation. -/
def demo_img : Arr := { sdims := ![1, 1, 1], chans := 1, data := fun _ _ => 5 }

/-- A concrete image whose first spatial axis admits one downsampling
step at min_shape 1. -/
def two_img : Arr := { sdims := ![2, 1, 1], chans := 1, data := fun _ _ => 0 }

/-- A concrete single-element update list for witness evaluation. -/
def demo_updates : List (Vec3 × Arr) := [(![0, 0, -1], demo_img)]

/-- The constant min_shape 1 used by witnesses. -/
def ms_one : Idx3 := fun _ => 1

lemma ms_one_pos : ∀ i, 1 ≤ ms_one i := fun _ => le_refl 1

/-- Pyramid primitives whose scorer and filter are zero and whose base
primitive returns the zero displacement. -/
def trivial_prims : PyrPrims :=
  { gaussian_filter := fun _ _ _ => 0
    shifted_corr := fun _ _ _ => 0
    align_cross_correlation := fun _ _ _ => fun _ => 0 }

/-- Pyramid primitives whose base primitive returns the lower bound when
bounds are supplied, hence respects any well-ordered bounds. -/
def bounded_prims : PyrPrims :=
  { gaussian_filter := fun _ _ _ => 0
    shifted_corr := fun _ _ _ => 0
    align_cross_correlation := fun _ _ b =>
      match b with
      | some bb => bb.1
      | none => fun _ => 0 }

theorem accumulator_growth_correct_witness :
    (apply_updates (demo_arr, demo_arr, fun _ => 0) demo_updates).1.sdims
      = (apply_updates (demo_arr, demo_arr, fun _ => 0) demo_updates).2.1.sdims ∧
    abs_get (apply_updates (demo_arr, demo_arr, fun _ => 0) demo_updates).1
        (apply_updates (demo_arr, demo_arr, fun _ => 0) demo_updates).2.2 ![0, 0, -1] 0
      = abs_get demo_arr (fun _ => 0) ![0, 0, -1] 0
        + total_contrib demo_updates ![0, 0, -1] 0 := by
  have h := accumulator_growth_correct demo_arr demo_arr (fun _ => 0) demo_updates rfl rfl
    (by
      rintro p hp
      rcases List.mem_singleton.mp hp with rfl
      rfl)
  exact ⟨h.1, h.2.2.2.1 ![0, 0, -1] 0⟩

theorem pyramid_align_respects_bounds_witness :
    within_bounds ![(0 : ℤ), 0, 0] (some (![0, 0, 0], ![1, 1, 1])) = true := by
  have h := pyramid_align_respects_bounds bounded_prims
    (fun r t b hb => (within_bounds_iff _ b.1 b.2).mpr
      (fun i => ⟨le_refl _, le_of_lt (hb i)⟩))
    demo_arr demo_arr ms_one ms_one_pos ⊤ ![0, 0, 0] ![1, 1, 1] (by decide) ![0, 0, 0]
    (by
      rw [pyramid_align.eq_def, if_pos (by decide), dif_neg (by decide)]
      rfl)
  exact (within_bounds_iff _ _ _).mpr h

theorem pyramid_align_refinement_witness :
    (![(0 : ℤ), 0, 0]) ∈ adjustments (axes_bool two_img two_img ms_one) := by
  have h := pyramid_align_refinement trivial_prims two_img two_img ms_one ms_one_pos ⊤ none
    rfl (by decide) (by decide) (fun _ => 0)
    (by
      rw [pyramid_align.eq_def, if_pos (by decide), dif_neg (by decide)]
      rfl)
  exact (h.1 ![0, 0, 0]).mpr (by decide)

theorem pyramid_align_terminates_witness :
    pyramid_align trivial_prims demo_arr demo_arr ms_one ms_one_pos ⊤ none
      = some (base_alignment trivial_prims demo_arr demo_arr none) :=
  (pyramid_align_terminates trivial_prims demo_arr demo_arr ms_one ms_one_pos ⊤ none).1
    rfl (by decide)

theorem pyramid_align_unbounded_total_witness :
    (pyramid_align trivial_prims demo_arr demo_arr ms_one ms_one_pos ⊤ none).isSome = true :=
  pyramid_align_unbounded_total trivial_prims ms_one ms_one_pos demo_arr demo_arr ⊤

theorem align_planes_idempotent_witness :
    _align_planes (_align_planes [[[![3, 1], ![1, 2]]]]) = _align_planes [[[![3, 1], ![1, 2]]]] :=
  (align_planes_idempotent [[[![3, 1], ![1, 2]]]] (by decide)).2

/-- A 1-plane, 1x1 pixel, 1-channel concrete plane image. -/
def demo_plane : Plane := { rdims := ![1, 1], chans := 1, data := fun _ _ => 2 }

/-- A coordinator state whose accumulator is still entirely empty. -/
def zero_state : AlignState :=
  { pixel_sums := demo_arr
    pixel_counts := demo_arr
    offset := fun _ => 0
    shifts := fun _ _ _ => fun _ => 0
    correlations := fun _ _ _ => 0 }

/-- A coordinator state whose plane-0 accumulator already has non-zero
counts. -/
def seeded_state : AlignState :=
  { pixel_sums := demo_img
    pixel_counts := demo_img
    offset := fun _ => 0
    shifts := fun _ _ _ => fun _ => 0
    correlations := fun _ _ _ => 0 }

/-- A concrete search primitive returning the zero displacement. -/
def search_zero : AlignState → ℕ → Plane → Vec3 := fun _ _ _ => fun _ => 0

/-- A concrete search primitive returning the all-ones displacement. -/
def search_one : AlignState → ℕ → Plane → Vec3 := fun _ _ _ => fun _ => 1

theorem seed_frame_detection_witness :
    _align_frame_plane search_zero "correlation" 0 0 zero_state 0 demo_plane
      = _align_frame_plane search_one "correlation" 0 0 zero_state 0 demo_plane :=
  (seed_frame_detection search_zero search_one "correlation" 0 0 zero_state 0 demo_plane
    (by decide)).1

/-- C8 counterexample: running the engine with method ECC on a frame whose
planes are all unseeded does not fail at all -- the seed branch runs first
regardless of the method, commits correlation 1 and shift 0 and adds the
plane into the accumulator, after which the frame completes successfully.
The failure, when it comes on a later frame, therefore happens after
committed partial work, contradicting the claim that ECC fails
immediately with no partial work performed. -/
theorem ecc_commits_seed_work :
    ((_align_frame search_zero "ECC" 0 0 0 zero_state [demo_plane]).toOption.map
        fun st2 => st2.correlations 0 0 0) = some 1 ∧
    ((_align_frame search_zero "ECC" 0 0 0 zero_state [demo_plane]).toOption.map
        fun st2 => st2.shifts 0 0 0) = some (fun _ => 0) ∧
    ((_align_frame search_zero "ECC" 0 0 0 zero_state [demo_plane]).toOption.map
        fun st2 => (st2.pixel_sums, st2.pixel_counts, st2.offset))
      = some (_update_reference zero_state.pixel_sums zero_state.pixel_counts
          zero_state.offset ![(0 : ℤ), 0, 0] (expand_dims demo_plane)) := by
  refine ⟨?_, ?_, ?_⟩
  · rfl
  · rfl
  · rfl

theorem method_dispatch_errors_witness :
    _align_frame_plane search_zero "ECC" 0 0 seeded_state 0 demo_plane
      = Except.error AlignError.notImplemented :=
  (method_dispatch_errors search_zero 0 0 seeded_state 0 demo_plane (by decide)).1
